import Mathlib

/-!
Shallow embedding of the question-extraction core of `src/streamlit_app.py`.

Strings are modelled as `List Char` (`Str`).  Python regular expressions are
hand-compiled to deterministic matchers: for every pattern appearing in the
source the adjacent character classes are disjoint, so greedy matching with
the engine's backtracking order collapses to the deterministic code below
(the one place where real backtracking can change the outcome, the
`\n\s*\n\s*\n` pattern, is modelled with explicit longest-first alternatives).
Character classes (`\s`, `\d`, `\w`, case folding) are modelled on the ASCII
range, matching the source inputs.  Bounded recursion uses a fuel argument
that is always at least the number of scanning steps (each step consumes at
least one input character), so the fuel never runs out.
-/

abbrev Str := List Char

/-- Python `\s` on the ASCII range: space, tab, newline, carriage return,
vertical tab, form feed. -/
def isPyWs (c : Char) : Bool :=
  c = ' ' || c = '\t' || c = '\n' || c = '\r' || c.toNat = 11 || c.toNat = 12

/-- Python `\w` on the ASCII range: letters, digits, underscore. -/
def isWord (c : Char) : Bool :=
  c.isAlpha || c.isDigit || c = '_'

/-- Python `int` on a nonempty digit string. -/
def digitsToNat (ds : Str) : Nat :=
  ds.foldl (fun a c => a * 10 + (c.toNat - 48)) 0

/-- Python `str.strip()`: drop leading and trailing whitespace. -/
def pstrip (l : Str) : Str :=
  ((l.dropWhile isPyWs).reverse.dropWhile isPyWs).reverse

/-- Python `str.split('\n')`: never returns an empty list. -/
def splitNl : Str → List Str
  | [] => [[]]
  | c :: t =>
    let r := splitNl t
    if c = '\n' then [] :: r
    else
      match r with
      | h :: t2 => (c :: h) :: t2
      | [] => [[c]]

/-- `startsWith p s`: `p` is a literal prefix of `s`. -/
def startsWith : Str → Str → Bool
  | [], _ => true
  | _ :: _, [] => false
  | a :: p, b :: s => a = b && startsWith p s

/-- Python `p in s` (substring test); the empty string occurs in every string. -/
def isSubstr (p : Str) : Str → Bool
  | [] => startsWith p []
  | s@(_ :: t) => startsWith p s || isSubstr p t

/-- Python `str.lower()` on the ASCII range. -/
def strLower (l : Str) : Str := l.map Char.toLower

/-- Decimal digits of `n`, most significant first (fuel variant). -/
def natDigitsF : Nat → Nat → Str
  | 0, _ => []
  | f + 1, n =>
    if n < 10 then [Char.ofNat (48 + n)]
    else natDigitsF f (n / 10) ++ [Char.ofNat (48 + n % 10)]

def natDigits (n : Nat) : Str := natDigitsF (n + 1) n

/-! ### Hand-compiled regex matchers -/

/-- Consume a case-sensitive literal, returning the remainder. -/
def dropLit : Str → Str → Option Str
  | [], l => some l
  | _ :: _, [] => none
  | p :: ps, c :: cs => if c = p then dropLit ps cs else none

/-- Consume a case-insensitive literal (re.IGNORECASE), returning the remainder. -/
def matchCIp : Str → Str → Option Str
  | [], l => some l
  | _ :: _, [] => none
  | p :: ps, c :: cs => if Char.toLower c = Char.toLower p then matchCIp ps cs else none

/-- Generic `re.search`: try the matcher at every position, leftmost first
(including the end-of-string position). -/
def searchAux {α : Type} (m : Str → Option α) : Str → Option α
  | [] => m []
  | c :: t =>
    match m (c :: t) with
    | some y => some y
    | none => searchAux m t

/-- `20\d{2}` anchored at the current position; captures the four characters. -/
def match20 (l : Str) : Option Str :=
  match l with
  | a :: b :: c :: d :: _ =>
    if a = '2' ∧ b = '0' ∧ c.isDigit ∧ d.isDigit then some [a, b, c, d] else none
  | _ => none

/-- `(?:st|nd|rd|th)` under IGNORECASE, anchored; the alternatives begin with
distinct letters, so the alternation is deterministic. -/
def matchOrdSuf (l : Str) : Option Str :=
  match l with
  | a :: b :: r =>
    let a2 := Char.toLower a
    let b2 := Char.toLower b
    if (a2 = 's' ∧ b2 = 't') ∨ (a2 = 'n' ∧ b2 = 'd') ∨ (a2 = 'r' ∧ b2 = 'd') ∨
        (a2 = 't' ∧ b2 = 'h') then some r
    else none
  | _ => none

/-- Tail `\s*(?:st|nd|rd|th)\s+\w+\s+(20\d{2})` of year pattern 1, anchored;
all adjacent character classes are disjoint, so greedy runs are forced. -/
def matchP1Tail (l : Str) : Option Str :=
  match matchOrdSuf (l.dropWhile isPyWs) with
  | none => none
  | some r2 =>
    match r2 with
    | c :: _ =>
      if isPyWs c then
        match r2.dropWhile isPyWs with
        | w :: rest3 =>
          if isWord w then
            match (w :: rest3).dropWhile isWord with
            | s :: rest4 =>
              if isPyWs s then match20 ((s :: rest4).dropWhile isPyWs) else none
            | [] => none
          else none
        | [] => none
      else none
    | [] => none

/-- Year pattern 1 `(\d{1,2})\s*(?:st|nd|rd|th)\s+\w+\s+(20\d{2})` anchored; the
greedy `\d{1,2}` tries two digits before one; returns (group 1, group 2). -/
def matchP1At (l : Str) : Option (Str × Str) :=
  match l with
  | c1 :: r1 =>
    if c1.isDigit then
      match r1 with
      | c2 :: r2 =>
        if c2.isDigit then
          match matchP1Tail r2 with
          | some y => some ([c1, c2], y)
          | none =>
            match matchP1Tail r1 with
            | some y => some ([c1], y)
            | none => none
        else
          match matchP1Tail r1 with
          | some y => some ([c1], y)
          | none => none
      | [] =>
        match matchP1Tail r1 with
        | some y => some ([c1], y)
        | none => none
    else none
  | [] => none

/-- Optional colon `:?` (greedy, deterministic here). -/
def dropColon (l : Str) : Str :=
  match l with
  | c :: t => if c = ':' then t else c :: t
  | [] => []

/-- Year pattern 3 `Year\s*:?\s*(20\d{2})` anchored, IGNORECASE. -/
def matchP3At (l : Str) : Option Str :=
  match matchCIp ("Year".data) l with
  | none => none
  | some r1 => match20 ((dropColon (r1.dropWhile isPyWs)).dropWhile isPyWs)

/-- Year pattern 4 `Session\s*:?\s*(20\d{2})` anchored, IGNORECASE. -/
def matchP4At (l : Str) : Option Str :=
  match matchCIp ("Session".data) l with
  | none => none
  | some r1 => match20 ((dropColon (r1.dropWhile isPyWs)).dropWhile isPyWs)

/-- The year-inference loop of the source: try the four patterns in order on
the whole text, first `re.search` hit wins.  The source keys the special case
on the literal `"st|nd|rd|th"` occurring in the pattern string, which holds
exactly for pattern 1: there `group(2)` is taken, elsewhere the last
(= only) group. -/
def inferYearOpt (s : Str) : Option Str :=
  match searchAux matchP1At s with
  | some g => some g.2
  | none =>
    match searchAux match20 s with
    | some y => some y
    | none =>
      match searchAux matchP3At s with
      | some y => some y
      | none =>
        match searchAux matchP4At s with
        | some y => some y
        | none => none

/-- `current_year or "Unknown"`: Python `or` falls through on `None` and on
the empty string. -/
def yearStr (s : Str) : Str :=
  match inferYearOpt s with
  | some y => if y = [] then ("Unknown".data) else y
  | none => "Unknown".data

/-- Question marker `Q\.\s*(\d+)\)` anchored; returns (captured number, length
of the whole match). -/
def matchQAt (l : Str) : Option (Nat × Nat) :=
  match l with
  | c1 :: c2 :: r =>
    if c1 = 'Q' ∧ c2 = '.' then
      let ws := r.takeWhile isPyWs
      let r1 := r.drop ws.length
      let ds := r1.takeWhile Char.isDigit
      if ds = [] then none
      else
        match r1.drop ds.length with
        | ')' :: _ => some (digitsToNat ds, 2 + ws.length + ds.length + 1)
        | _ => none
    else none
  | _ => none

/-- Page sentinel `\n--- PAGE \d+ ---\n` anchored (case-sensitive, as in the
source `re.sub`); returns the remainder after the match. -/
def matchSentinelAt (l : Str) : Option Str :=
  match dropLit ("\n--- PAGE ".data) l with
  | none => none
  | some r1 =>
    let ds := r1.takeWhile Char.isDigit
    if ds = [] then none
    else dropLit (" ---\n".data) (r1.drop ds.length)

/-- All `r.drop j` for `j` from the length of the leading whitespace run down
to `0`: the candidate remainders of a greedy `\s*`, longest first. -/
def wsCands (r : Str) : List Str :=
  (List.range ((r.takeWhile isPyWs).length + 1)).reverse.map (fun j => r.drop j)

/-- `\n\s*\n\s*\n` anchored, with the engine's backtracking order (both `\s*`
greedy, longest first); returns the remainder after the match. -/
def matchTripleAt (l : Str) : Option Str :=
  match l with
  | '\n' :: r =>
    (wsCands r).findSome? fun r1 =>
      match r1 with
      | '\n' :: r2 =>
        (wsCands r2).findSome? fun r3 =>
          match r3 with
          | '\n' :: r4 => some r4
          | _ => none
      | _ => none
  | _ => none

/-- Marks pattern `\[(\d+)\]\s*$` anchored at the current position (no
MULTILINE): `\s*$` succeeds exactly when the remainder is all whitespace. -/
def matchMarksAt (l : Str) : Option Str :=
  match l with
  | '[' :: r =>
    let ds := r.takeWhile Char.isDigit
    if ds = [] then none
    else
      match r.drop ds.length with
      | ']' :: rest => if rest.all isPyWs then some ds else none
      | _ => none
  | _ => none

/-- First position (if any) at which `\*{10,}` matches: ten consecutive stars. -/
def findStar : Str → Option Nat
  | [] => none
  | c :: t =>
    if (c :: t).take 10 = List.replicate 10 '*' then some 0
    else (findStar t).map (· + 1)

/-! ### Pipeline -/

/-- `f"\n--- PAGE {page_num} ---\n"`. -/
def sentinel (n : Nat) : Str :=
  '\n' :: ("--- PAGE ".data ++ natDigits n ++ " ---\n".data)

/-- Page concatenation loop: pages are numbered from 1 by position; empty
pages are skipped; before appending a page the current length is recorded in
the break table (Python dict in insertion order, modelled as a list). -/
def concatAux : List Str → Nat → Str → List (Nat × Nat) → Str × List (Nat × Nat)
  | [], _, all, brs => (all, brs)
  | t :: rest, i, all, brs =>
    if t = [] then concatAux rest (i + 1) all brs
    else concatAux rest (i + 1) (all ++ sentinel i ++ t) (brs ++ [(all.length, i)])

def concatPages (pages : List Str) : Str × List (Nat × Nat) :=
  concatAux pages 1 [] []

/-- The page-attribution loop: `page_num = 1`, then for each recorded break
(in insertion order) `if start_pos >= pos: page_num = page`. -/
def findPage (brs : List (Nat × Nat)) (p : Nat) : Nat :=
  brs.foldl (fun acc b => if b.1 ≤ p then b.2 else acc) 1

structure Marker where
  num : Nat
  start : Nat
  page : Nat
deriving DecidableEq, Repr

/-- `re.finditer` of the question pattern: scan left to right, on a match
record it and resume after the match, otherwise advance one character.  The
fuel (initially `length + 1`) bounds the number of steps; each step consumes
at least one character, so it is never exhausted. -/
def scanQF (brs : List (Nat × Nat)) : Nat → Str → Nat → List Marker
  | 0, _, _ => []
  | _ + 1, [], _ => []
  | f + 1, c :: t, i =>
    match matchQAt (c :: t) with
    | some nk => { num := nk.1, start := i, page := findPage brs i } ::
        scanQF brs f ((c :: t).drop nk.2) (i + nk.2)
    | none => scanQF brs f t (i + 1)

def questionPositions (pages : List Str) : List Marker :=
  let ac := concatPages pages
  scanQF ac.2 (ac.1.length + 1) ac.1 0

/-- The sort key of `question_positions.sort(key=lambda x: x["number"])`. -/
def markerLE (a b : Marker) : Prop := a.num ≤ b.num

instance : DecidableRel markerLE := fun a b => Nat.decLe a.num b.num

instance : IsTotal Marker markerLE := ⟨fun a b => Nat.le_total a.num b.num⟩

instance : IsTrans Marker markerLE := ⟨fun _ _ _ => Nat.le_trans⟩

/-- Python `list.sort` is stable; modelled by stable insertion sort. -/
def sortedMarkers (pages : List Str) : List Marker :=
  List.insertionSort markerLE (questionPositions pages)

/-- `re.sub(r'\n--- PAGE \d+ ---\n', '\n', s)`: non-overlapping left-to-right
replacement; the replacement text is not rescanned. -/
def subSentinelF : Nat → Str → Str
  | 0, _ => []
  | _ + 1, [] => []
  | f + 1, c :: t =>
    match matchSentinelAt (c :: t) with
    | some rest => '\n' :: subSentinelF f rest
    | none => c :: subSentinelF f t

def subSentinel (l : Str) : Str := subSentinelF (l.length + 1) l

/-- `re.sub(r'\n\s*\n\s*\n', '\n\n', s)`. -/
def collapseF : Nat → Str → Str
  | 0, _ => []
  | _ + 1, [] => []
  | f + 1, c :: t =>
    match matchTripleAt (c :: t) with
    | some rest => '\n' :: '\n' :: collapseF f rest
    | none => c :: collapseF f t

def collapseNl (l : Str) : Str := collapseF (l.length + 1) l

/-- `re.sub(r'Q\.\s*\d+\)', '', line)`: delete every marker fragment. -/
def subQF : Nat → Str → Str
  | 0, _ => []
  | _ + 1, [] => []
  | f + 1, c :: t =>
    match matchQAt (c :: t) with
    | some nk => subQF f ((c :: t).drop nk.2)
    | none => c :: subQF f t

def subQMarker (l : Str) : Str := subQF (l.length + 1) l

/-- One preview-candidate line: markers removed, then stripped. -/
def cleanLine (l : Str) : Str := pstrip (subQMarker l)

/-- The preview loop: first line whose cleaned form is nonempty and longer
than 10 characters. -/
def pickPreview : List Str → Option Str
  | [] => none
  | l :: ls =>
    let c := cleanLine l
    if c ≠ [] ∧ 10 < c.length then some c else pickPreview ls

/-- Build `question_preview` from the cleaned content: chosen line (or the
raw first line, or the whole content when there are no lines), truncated to
150 characters plus an ellipsis when longer than 150. -/
def mkPreview (content : Str) : Str :=
  let ls := splitNl content
  let p0 :=
    match pickPreview ls with
    | some p => p
    | none =>
      match ls with
      | [] => content
      | l0 :: _ => l0
  if 150 < p0.length then p0.take 150 ++ "...".data else p0

/-- `marks_match.group(1) if marks_match else "Unknown"`. -/
def extractMarks (c : Str) : Str :=
  match searchAux matchMarksAt c with
  | some ds => ds
  | none => "Unknown".data

/-- Python slice `all_text[a:b]` (empty when `b ≤ a`). -/
def sliceStr (all : Str) (a b : Nat) : Str := (all.drop a).take (b - a)

/-- Span cleanup exactly in source order: slice, strip, remove sentinels,
collapse newline runs, strip again. -/
def cleanedSpan (all : Str) (p : Marker × Nat) : Str :=
  pstrip (collapseNl (subSentinel (pstrip (sliceStr all p.1.start p.2))))

/-- End offset of the final question: first run of ten stars after its start,
else the end of the document. -/
def endLast (all : Str) (m : Marker) : Nat :=
  match findStar (all.drop m.start) with
  | some j => m.start + j
  | none => all.length

/-- Pair each sorted marker with its end offset: the next sorted marker's
start, or `endLast` for the final one. -/
def withEnds (all : Str) : List Marker → List (Marker × Nat)
  | [] => []
  | [m] => [(m, endLast all m)]
  | m :: m2 :: rest => (m, m2.start) :: withEnds all (m2 :: rest)

structure QRec where
  num : Nat
  preview : Str
  content : Str
  marks : Str
  chapter : Option Str
  year : Str
  page : Nat
deriving DecidableEq, Repr

/-- Build one record from a (marker, end) pair; spans whose cleaned content
is at most 20 characters yield no record.  (The source computes `marks` just
before the length test; the value is the same either way.) -/
def mkRec (all : Str) (year : Str) (p : Marker × Nat) : Option QRec :=
  let c := cleanedSpan all p
  if 20 < c.length then
    some { num := p.1.num, preview := mkPreview c, content := c,
           marks := extractMarks c, chapter := none, year := year, page := p.1.page }
  else none

/-- `extract_questions_with_year`, with the per-page PDF text given as input
(the pdfplumber call is the read boundary). -/
def extract_questions_with_year (pages : List Str) : List QRec :=
  let ac := concatPages pages
  (withEnds ac.1 (sortedMarkers pages)).filterMap (mkRec ac.1 (yearStr ac.1))

/-! ### Chapter assignment -/

/-- `any(keyword.lower() in question_lower for keyword in keywords)`. -/
def keywordHit (qlower : Str) (kws : List Str) : Bool :=
  kws.any (fun kw => isSubstr (strLower kw) qlower)

/-- The inner loop of `bulk_assign_by_keywords`: first matching chapter wins,
no match leaves the record untouched. -/
def assignChapter : List (Str × List Str) → QRec → QRec
  | [], q => q
  | (c, kws) :: rest, q =>
    if keywordHit (strLower q.preview) kws then { q with chapter := some c }
    else assignChapter rest q

def bulk_assign_by_keywords (qs : List QRec) (mapping : List (Str × List Str)) : List QRec :=
  qs.map (assignChapter mapping)


/-- Lexicographic order on (number, scan position): the order the spec
predicts for the sorted marker list. -/
def mlex (a b : Marker) : Prop :=
  a.num < b.num ∨ (a.num = b.num ∧ a.start < b.start)

/-- Modelled from claim C10: the year-inference chain restricted to the first
two patterns, for the refinement comparison. -/
def inferYearOpt2 (s : Str) : Option Str :=
  match searchAux matchP1At s with
  | some g => some g.2
  | none =>
    match searchAux match20 s with
    | some y => some y
    | none => none

/-- The `current_year or "Unknown"` coalescing on top of `inferYearOpt2`. -/
def yearStr2 (s : Str) : Str :=
  match inferYearOpt2 s with
  | some y => if y = [] then ("Unknown".data) else y
  | none => "Unknown".data

/-! ### Lemmas about the marker scan -/

theorem matchQAt_pos {l : Str} {nk : Nat × Nat} (h : matchQAt l = some nk) : 1 ≤ nk.2 := by
  simp only [matchQAt] at h
  split at h
  · split at h
    · split at h
      · simp at h
      · split at h
        · cases h
          simp only []
          omega
        · simp at h
    · simp at h
  · simp at h

theorem scanQF_start_le (brs : List (Nat × Nat)) :
    ∀ (f : Nat) (l : Str) (i : Nat), ∀ m ∈ scanQF brs f l i, i ≤ m.start := by
  intro f
  induction f with
  | zero => intro l i m hm; simp [scanQF] at hm
  | succ f ih =>
    intro l i m hm
    cases l with
    | nil => simp [scanQF] at hm
    | cons c t =>
      rw [scanQF] at hm
      split at hm
      · rcases List.mem_cons.mp hm with h | h
        · subst h; exact Nat.le_refl _
        · have := ih _ _ m h; omega
      · have := ih _ _ m hm; omega

theorem scanQF_pairwise (brs : List (Nat × Nat)) :
    ∀ (f : Nat) (l : Str) (i : Nat),
      (scanQF brs f l i).Pairwise (fun a b => a.start < b.start) := by
  intro f
  induction f with
  | zero => intro l i; simp [scanQF]
  | succ f ih =>
    intro l i
    cases l with
    | nil => simp [scanQF]
    | cons c t =>
      rw [scanQF]
      split
      case _ nk heq =>
        refine List.Pairwise.cons ?_ (ih _ _)
        intro m hm
        have h1 : i + nk.2 ≤ m.start := scanQF_start_le brs f _ _ m hm
        have h2 : 1 ≤ nk.2 := matchQAt_pos heq
        show i < m.start
        omega
      case _ => exact ih _ _

theorem scanQF_page (brs : List (Nat × Nat)) :
    ∀ (f : Nat) (l : Str) (i : Nat), ∀ m ∈ scanQF brs f l i, m.page = findPage brs m.start := by
  intro f
  induction f with
  | zero => intro l i m hm; simp [scanQF] at hm
  | succ f ih =>
    intro l i m hm
    cases l with
    | nil => simp [scanQF] at hm
    | cons c t =>
      rw [scanQF] at hm
      split at hm
      · rcases List.mem_cons.mp hm with h | h
        · subst h; rfl
        · exact ih _ _ m h
      · exact ih _ _ m hm

/-! ### Lemmas about page concatenation -/

theorem sentinel_length_pos (n : Nat) : 0 < (sentinel n).length := by
  simp [sentinel]

theorem concatAux_snd_pre :
    ∀ (ps : List Str) (i : Nat) (all : Str) (brs : List (Nat × Nat)),
      ∃ ext, (concatAux ps i all brs).2 = brs ++ ext := by
  intro ps
  induction ps with
  | nil => intro i all brs; exact ⟨[], by simp [concatAux]⟩
  | cons t ps ih =>
    intro i all brs
    rw [concatAux]
    split
    · exact ih _ _ _
    · obtain ⟨ext, he⟩ := ih (i + 1) (all ++ sentinel i ++ t) (brs ++ [(all.length, i)])
      exact ⟨(all.length, i) :: ext, by rw [he, List.append_assoc]; rfl⟩

theorem concatAux_pairwise :
    ∀ (ps : List Str) (i : Nat) (all : Str) (brs : List (Nat × Nat)),
      brs.Pairwise (fun a b => a.1 < b.1) → (∀ b ∈ brs, b.1 < all.length) →
      ((concatAux ps i all brs).2).Pairwise (fun a b => a.1 < b.1) := by
  intro ps
  induction ps with
  | nil => intro i all brs h1 h2; simpa [concatAux] using h1
  | cons t ps ih =>
    intro i all brs h1 h2
    rw [concatAux]
    split
    · exact ih _ _ _ h1 h2
    · have hlen : all.length < (all ++ sentinel i ++ t).length := by
        simp only [List.length_append]
        have := sentinel_length_pos i
        omega
      apply ih
      · rw [List.pairwise_append]
        refine ⟨h1, List.pairwise_singleton _ _, ?_⟩
        intro a ha b hb
        simp only [List.mem_singleton] at hb
        rw [hb]
        exact h2 a ha
      · intro b hb
        rw [List.mem_append] at hb
        rcases hb with hb | hb
        · exact Nat.lt_trans (h2 b hb) hlen
        · simp only [List.mem_singleton] at hb
          rw [hb]
          exact hlen

theorem concatAux_zero_head :
    ∀ (ps : List Str) (i : Nat),
      (concatAux ps i ([] : Str) ([] : List (Nat × Nat))).2 = [] ∨
      ∃ pg ext, (concatAux ps i ([] : Str) ([] : List (Nat × Nat))).2 = (0, pg) :: ext := by
  intro ps
  induction ps with
  | nil => intro i; left; simp [concatAux]
  | cons t ps ih =>
    intro i
    rw [concatAux]
    split
    · exact ih (i + 1)
    · right
      obtain ⟨ext, he⟩ :=
        concatAux_snd_pre ps (i + 1) ([] ++ sentinel i ++ t) ([] ++ [((List.length ([] : Str)), i)])
      exact ⟨i, ext, by rw [he]; rfl⟩

theorem concatAux_nil_all :
    ∀ (ps : List Str) (i : Nat) (all : Str) (brs : List (Nat × Nat)),
      (brs = [] → all = []) →
      (concatAux ps i all brs).2 = [] → (concatAux ps i all brs).1 = [] := by
  intro ps
  induction ps with
  | nil => intro i all brs h h2; simp only [concatAux] at h2 ⊢; exact h h2
  | cons t ps ih =>
    intro i all brs h h2
    by_cases ht : t = []
    · rw [concatAux, if_pos ht] at h2 ⊢
      exact ih _ _ _ h h2
    · rw [concatAux, if_neg ht] at h2 ⊢
      obtain ⟨ext, he⟩ :=
        concatAux_snd_pre ps (i + 1) (all ++ sentinel i ++ t) (brs ++ [(all.length, i)])
      rw [he] at h2
      exfalso
      simp at h2

/-! ### Lemmas about page attribution -/

theorem foldl_page_const (p : Nat) :
    ∀ (brs : List (Nat × Nat)) (a : Nat), (∀ b ∈ brs, ¬ b.1 ≤ p) →
      brs.foldl (fun acc b => if b.1 ≤ p then b.2 else acc) a = a := by
  intro brs
  induction brs with
  | nil => intro a _; rfl
  | cons b brs ih =>
    intro a h
    rw [List.foldl_cons, if_neg (h b (List.mem_cons_self _ _))]
    exact ih a (fun x hx => h x (List.mem_cons_of_mem _ hx))

theorem foldl_page_greatest (p : Nat) :
    ∀ (brs : List (Nat × Nat)) (a : Nat),
      brs.Pairwise (fun x y => x.1 < y.1) → (∃ b0 ∈ brs, b0.1 ≤ p) →
      ∃ off, (off, brs.foldl (fun acc b => if b.1 ≤ p then b.2 else acc) a) ∈ brs ∧
        off ≤ p ∧ ∀ b ∈ brs, b.1 ≤ p → b.1 ≤ off := by
  intro brs
  induction brs with
  | nil => intro a _ hex; simp at hex
  | cons b brs ih =>
    intro a hpw hex
    rw [List.foldl_cons]
    rw [List.pairwise_cons] at hpw
    by_cases htail : ∃ b0 ∈ brs, b0.1 ≤ p
    · obtain ⟨off, hmem, hle, hmax⟩ := ih _ hpw.2 htail
      refine ⟨off, List.mem_cons_of_mem _ hmem, hle, ?_⟩
      intro x hx hxp
      rcases List.mem_cons.mp hx with h | hx2
      · subst h; exact Nat.le_of_lt (hpw.1 _ hmem)
      · exact hmax x hx2 hxp
    · have hb : b.1 ≤ p := by
        rcases hex with ⟨b0, hb0, hb0p⟩
        rcases List.mem_cons.mp hb0 with h | h
        · subst h; exact hb0p
        · exact absurd ⟨b0, h, hb0p⟩ htail
      push_neg at htail
      rw [if_pos hb, foldl_page_const p brs b.2
        (fun x hx hc => absurd hc (Nat.not_le.mpr (htail x hx)))]
      refine ⟨b.1, ?_, hb, ?_⟩
      · rw [show (b.1, b.2) = b from rfl]
        exact List.mem_cons_self _ _
      · intro x hx hxp
        rcases List.mem_cons.mp hx with h | hx2
        · subst h; exact Nat.le_refl _
        · exact absurd hxp (Nat.not_le.mpr (htail x hx2))

/-! ### Lemmas about record construction -/

theorem withEnds_map_fst (all : Str) :
    ∀ ms : List Marker, (withEnds all ms).map Prod.fst = ms := by
  intro ms
  induction ms with
  | nil => rfl
  | cons m ms ih =>
    cases ms with
    | nil => rfl
    | cons m2 rest =>
      rw [withEnds, List.map_cons, ih]

theorem filterMap_map_sublist {α β γ : Type} (f : α → Option β) (g : β → γ) (h : α → γ)
    (hc : ∀ a b, f a = some b → g b = h a) :
    ∀ l : List α, List.Sublist ((l.filterMap f).map g) (l.map h) := by
  intro l
  induction l with
  | nil => simp
  | cons a l ih =>
    rw [List.map_cons, List.filterMap_cons]
    cases hfa : f a with
    | none => exact List.Sublist.cons _ ih
    | some b => rw [List.map_cons, hc a b hfa]; exact List.Sublist.cons₂ _ ih

theorem mkRec_num {all year : Str} {p : Marker × Nat} {q : QRec}
    (h : mkRec all year p = some q) : q.num = p.1.num := by
  simp only [mkRec] at h
  by_cases hc : 20 < (cleanedSpan all p).length
  · rw [if_pos hc] at h
    obtain ⟨n, pv, ct, mk2, ch, yr, pg⟩ := q
    simp only [Option.some.injEq, QRec.mk.injEq] at h
    exact (h.1).symm
  · rw [if_neg hc] at h
    exact absurd h (by simp)

theorem mkRec_preview {all year : Str} {p : Marker × Nat} {q : QRec}
    (h : mkRec all year p = some q) : q.preview = mkPreview (cleanedSpan all p) := by
  simp only [mkRec] at h
  by_cases hc : 20 < (cleanedSpan all p).length
  · rw [if_pos hc] at h
    obtain ⟨n, pv, ct, mk2, ch, yr, pg⟩ := q
    simp only [Option.some.injEq, QRec.mk.injEq] at h
    exact (h.2.1).symm
  · rw [if_neg hc] at h
    exact absurd h (by simp)

theorem mkRec_content {all year : Str} {p : Marker × Nat} {q : QRec}
    (h : mkRec all year p = some q) : q.content = cleanedSpan all p := by
  simp only [mkRec] at h
  by_cases hc : 20 < (cleanedSpan all p).length
  · rw [if_pos hc] at h
    obtain ⟨n, pv, ct, mk2, ch, yr, pg⟩ := q
    simp only [Option.some.injEq, QRec.mk.injEq] at h
    exact (h.2.2.1).symm
  · rw [if_neg hc] at h
    exact absurd h (by simp)

theorem mkRec_marks {all year : Str} {p : Marker × Nat} {q : QRec}
    (h : mkRec all year p = some q) : q.marks = extractMarks (cleanedSpan all p) := by
  simp only [mkRec] at h
  by_cases hc : 20 < (cleanedSpan all p).length
  · rw [if_pos hc] at h
    obtain ⟨n, pv, ct, mk2, ch, yr, pg⟩ := q
    simp only [Option.some.injEq, QRec.mk.injEq] at h
    exact (h.2.2.2.1).symm
  · rw [if_neg hc] at h
    exact absurd h (by simp)

theorem mkRec_chapter {all year : Str} {p : Marker × Nat} {q : QRec}
    (h : mkRec all year p = some q) : q.chapter = none := by
  simp only [mkRec] at h
  by_cases hc : 20 < (cleanedSpan all p).length
  · rw [if_pos hc] at h
    obtain ⟨n, pv, ct, mk2, ch, yr, pg⟩ := q
    simp only [Option.some.injEq, QRec.mk.injEq] at h
    exact (h.2.2.2.2.1).symm
  · rw [if_neg hc] at h
    exact absurd h (by simp)

theorem mkRec_year {all year : Str} {p : Marker × Nat} {q : QRec}
    (h : mkRec all year p = some q) : q.year = year := by
  simp only [mkRec] at h
  by_cases hc : 20 < (cleanedSpan all p).length
  · rw [if_pos hc] at h
    obtain ⟨n, pv, ct, mk2, ch, yr, pg⟩ := q
    simp only [Option.some.injEq, QRec.mk.injEq] at h
    exact (h.2.2.2.2.2.1).symm
  · rw [if_neg hc] at h
    exact absurd h (by simp)

theorem mkRec_page {all year : Str} {p : Marker × Nat} {q : QRec}
    (h : mkRec all year p = some q) : q.page = p.1.page := by
  simp only [mkRec] at h
  by_cases hc : 20 < (cleanedSpan all p).length
  · rw [if_pos hc] at h
    obtain ⟨n, pv, ct, mk2, ch, yr, pg⟩ := q
    simp only [Option.some.injEq, QRec.mk.injEq] at h
    exact (h.2.2.2.2.2.2).symm
  · rw [if_neg hc] at h
    exact absurd h (by simp)

theorem mkRec_len {all year : Str} {p : Marker × Nat} {q : QRec}
    (h : mkRec all year p = some q) : 20 < (cleanedSpan all p).length := by
  simp only [mkRec] at h
  by_cases hc : 20 < (cleanedSpan all p).length
  · exact hc
  · rw [if_neg hc] at h
    exact absurd h (by simp)

theorem mem_extract {pages : List Str} {q : QRec}
    (h : q ∈ extract_questions_with_year pages) :
    ∃ p ∈ withEnds (concatPages pages).1 (sortedMarkers pages),
      mkRec (concatPages pages).1 (yearStr (concatPages pages).1) p = some q := by
  simp only [extract_questions_with_year] at h
  exact List.mem_filterMap.mp h

theorem extract_num_sublist (pages : List Str) :
    List.Sublist ((extract_questions_with_year pages).map (fun q => q.num))
      ((sortedMarkers pages).map (fun m => m.num)) := by
  have hsub : List.Sublist ((extract_questions_with_year pages).map (fun q => q.num))
      ((withEnds (concatPages pages).1 (sortedMarkers pages)).map (fun p => p.1.num)) := by
    simp only [extract_questions_with_year]
    exact filterMap_map_sublist _ _ _ (fun a b hab => mkRec_num hab) _
  have hmapeq : ((withEnds (concatPages pages).1 (sortedMarkers pages)).map (fun p => p.1.num)) =
      ((sortedMarkers pages).map (fun m => m.num)) := by
    conv_rhs => rw [← withEnds_map_fst (concatPages pages).1 (sortedMarkers pages)]
    rw [List.map_map]
    rfl
  rw [← hmapeq]
  exact hsub

/-! ### Stability of the sort -/

theorem mlex_num_le {a b : Marker} (h : mlex a b) : a.num ≤ b.num := by
  rcases h with h | ⟨h, _⟩
  · exact Nat.le_of_lt h
  · exact Nat.le_of_eq h

theorem orderedInsert_mlex (a : Marker) :
    ∀ L : List Marker, L.Pairwise mlex → (∀ b ∈ L, a.start < b.start) →
      (List.orderedInsert markerLE a L).Pairwise mlex := by
  intro L
  induction L with
  | nil => intro _ _; simp [List.orderedInsert]
  | cons b L2 ih =>
    intro hpw hst
    rw [List.pairwise_cons] at hpw
    rw [List.orderedInsert]
    split
    case isTrue hab =>
      refine List.Pairwise.cons ?_ (List.Pairwise.cons hpw.1 hpw.2)
      intro x hx
      rcases List.mem_cons.mp hx with hxb | hx2
      · subst hxb
        rcases Nat.lt_or_ge a.num x.num with h | h
        · exact Or.inl h
        · exact Or.inr ⟨Nat.le_antisymm hab h, hst x (List.mem_cons_self _ _)⟩
      · have hbx : b.num ≤ x.num := mlex_num_le (hpw.1 x hx2)
        rcases Nat.lt_or_ge a.num x.num with h | h
        · exact Or.inl h
        · exact Or.inr ⟨Nat.le_antisymm (Nat.le_trans hab hbx) h,
            hst x (List.mem_cons_of_mem _ hx2)⟩
    case isFalse hab =>
      refine List.Pairwise.cons ?_ (ih hpw.2 (fun x hx => hst x (List.mem_cons_of_mem _ hx)))
      intro x hx
      rcases (List.mem_orderedInsert markerLE).mp hx with hxa | hx2
      · subst hxa
        exact Or.inl (Nat.not_le.mp hab)
      · exact hpw.1 x hx2

theorem insertionSort_mlex :
    ∀ L : List Marker, L.Pairwise (fun a b => a.start < b.start) →
      (List.insertionSort markerLE L).Pairwise mlex := by
  intro L
  induction L with
  | nil => intro _; simp [List.insertionSort]
  | cons a L ih =>
    intro hpw
    rw [List.pairwise_cons] at hpw
    rw [List.insertionSort]
    apply orderedInsert_mlex
    · exact ih hpw.2
    · intro b hb
      exact hpw.1 b ((List.mem_insertionSort markerLE).mp hb)


/-! ### Lemmas about searching and the year matchers -/

theorem searchAux_some_drop {α : Type} {m : Str → Option α} :
    ∀ {l : Str} {y : α}, searchAux m l = some y → ∃ n, m (l.drop n) = some y := by
  intro l
  induction l with
  | nil => intro y h; exact ⟨0, h⟩
  | cons c t ih =>
    intro y h
    rw [searchAux] at h
    split at h
    case _ y2 heq => exact ⟨0, by rw [List.drop_zero, heq]; exact h⟩
    case _ heq =>
      obtain ⟨n, hn⟩ := ih h
      exact ⟨n + 1, hn⟩

theorem searchAux_none_drop {α : Type} {m : Str → Option α} :
    ∀ {l : Str}, searchAux m l = none → ∀ n, m (l.drop n) = none := by
  intro l
  induction l with
  | nil => intro h n; simpa [searchAux] using h
  | cons c t ih =>
    intro h n
    rw [searchAux] at h
    split at h
    · exact absurd h (by simp)
    · cases n with
      | zero => assumption
      | succ n => exact ih h n

theorem search_of_drop_hit {α : Type} {m : Str → Option α} {s : Str} {n : Nat} {y : α}
    (h : m (s.drop n) = some y) : ∃ y2, searchAux m s = some y2 := by
  cases h2 : searchAux m s with
  | some y2 => exact ⟨y2, rfl⟩
  | none => rw [searchAux_none_drop h2 n] at h; exact absurd h (by simp)

theorem match20_ne_nil {l y : Str} (h : match20 l = some y) : y ≠ [] := by
  simp only [match20] at h
  split at h
  · split at h
    · injection h with h2
      subst h2
      simp
    · exact absurd h (by simp)
  · exact absurd h (by simp)

theorem matchP1Tail_match20 {l y : Str} (h : matchP1Tail l = some y) :
    ∃ r, match20 r = some y := by
  simp only [matchP1Tail] at h
  split at h
  · exact absurd h (by simp)
  · split at h
    · split at h
      · split at h
        · split at h
          · split at h
            · split at h
              · exact ⟨_, h⟩
              · exact absurd h (by simp)
            · exact absurd h (by simp)
          · exact absurd h (by simp)
        · exact absurd h (by simp)
      · exact absurd h (by simp)
    · exact absurd h (by simp)

theorem matchP1At_match20 {l : Str} {g : Str × Str} (h : matchP1At l = some g) :
    ∃ r, match20 r = some g.2 := by
  simp only [matchP1At] at h
  split at h
  · split at h
    · split at h
      · split at h
        · split at h
          · injection h with h2; subst h2; exact matchP1Tail_match20 (by assumption)
          · split at h
            · injection h with h2; subst h2; exact matchP1Tail_match20 (by assumption)
            · exact absurd h (by simp)
        · split at h
          · injection h with h2; subst h2; exact matchP1Tail_match20 (by assumption)
          · exact absurd h (by simp)
      · split at h
        · injection h with h2; subst h2; exact matchP1Tail_match20 (by assumption)
        · exact absurd h (by simp)
    · exact absurd h (by simp)
  · exact absurd h (by simp)

theorem dropWhile_suffix (p : Char → Bool) : ∀ l : Str, (l.dropWhile p).IsSuffix l := by
  intro l
  induction l with
  | nil => exact List.suffix_rfl
  | cons c t ih =>
    rw [List.dropWhile_cons]
    split
    · exact ih.trans (List.suffix_cons c t)
    · exact List.suffix_rfl

theorem matchCIp_suffix : ∀ (p l r : Str), matchCIp p l = some r → r.IsSuffix l := by
  intro p
  induction p with
  | nil =>
    intro l r h
    injection h with h2
    subst h2
    exact List.suffix_rfl
  | cons a p ih =>
    intro l r h
    cases l with
    | nil => exact absurd h (by simp [matchCIp])
    | cons c cs =>
      rw [matchCIp] at h
      split at h
      · exact (ih cs r h).trans (List.suffix_cons c cs)
      · exact absurd h (by simp)

theorem dropColon_suffix (l : Str) : (dropColon l).IsSuffix l := by
  cases l with
  | nil => exact List.suffix_rfl
  | cons c t =>
    rw [dropColon]
    split
    · exact List.suffix_cons _ _
    · exact List.suffix_rfl

theorem matchP3At_drop {l y : Str} (h : matchP3At l = some y) :
    ∃ n, match20 (l.drop n) = some y := by
  simp only [matchP3At] at h
  split at h
  · exact absurd h (by simp)
  · case _ r1 heq =>
    have hs : ((dropColon (r1.dropWhile isPyWs)).dropWhile isPyWs).IsSuffix l :=
      ((dropWhile_suffix _ _).trans ((dropColon_suffix _).trans
        ((dropWhile_suffix _ _).trans (matchCIp_suffix _ _ _ heq))))
    obtain ⟨u, hu⟩ := hs
    refine ⟨u.length, ?_⟩
    rw [← hu, List.drop_left]
    exact h

theorem matchP4At_drop {l y : Str} (h : matchP4At l = some y) :
    ∃ n, match20 (l.drop n) = some y := by
  simp only [matchP4At] at h
  split at h
  · exact absurd h (by simp)
  · case _ r1 heq =>
    have hs : ((dropColon (r1.dropWhile isPyWs)).dropWhile isPyWs).IsSuffix l :=
      ((dropWhile_suffix _ _).trans ((dropColon_suffix _).trans
        ((dropWhile_suffix _ _).trans (matchCIp_suffix _ _ _ heq))))
    obtain ⟨u, hu⟩ := hs
    refine ⟨u.length, ?_⟩
    rw [← hu, List.drop_left]
    exact h


/-! ### Lemmas about preview construction -/

theorem pickPreview_eq_find :
    ∀ ls : List Str,
      pickPreview ls = (ls.find? (fun l => decide (10 < (cleanLine l).length))).map cleanLine := by
  intro ls
  induction ls with
  | nil => rfl
  | cons l ls ih =>
    by_cases h : 10 < (cleanLine l).length
    · have hne : cleanLine l ≠ [] := by
        intro hc
        rw [hc] at h
        simp at h
      rw [pickPreview, if_pos ⟨hne, h⟩, List.find?_cons_of_pos _ (by simpa using h)]
      rfl
    · rw [pickPreview, if_neg (fun hc => h hc.2), List.find?_cons_of_neg _ (by simpa using h)]
      exact ih

theorem mkPreview_eq (c : Str) :
    mkPreview c =
      (let ls := splitNl c
       let chosen := ((ls.find? (fun l => decide (10 < (cleanLine l).length))).map
         cleanLine).getD (ls.headD c)
       if 150 < chosen.length then chosen.take 150 ++ ("...".data) else chosen) := by
  simp only [mkPreview, pickPreview_eq_find]
  cases hf : (splitNl c).find? (fun l => decide (10 < (cleanLine l).length)) with
  | some p => simp [hf]
  | none =>
    cases hls : splitNl c with
    | nil => simp [hf, hls]
    | cons l0 t => simp [hf, hls]

theorem mkPreview_len (c : Str) : (mkPreview c).length ≤ 153 := by
  simp only [mkPreview]
  split
  case isTrue h =>
    rw [List.length_append, List.length_take]
    simp only [List.length_cons, List.length_nil]
    omega
  case isFalse h => omega

/-! ### Lemmas about chapter assignment -/

theorem assignChapter_eq (q : QRec) :
    ∀ mapping : List (Str × List Str),
      assignChapter mapping q =
        { q with chapter :=
            match mapping.find? (fun cm => keywordHit (strLower q.preview) cm.2) with
            | some cm => some cm.1
            | none => q.chapter } := by
  intro mapping
  induction mapping with
  | nil => rfl
  | cons cm rest ih =>
    obtain ⟨c, kws⟩ := cm
    cases h : keywordHit (strLower q.preview) kws with
    | true =>
      rw [assignChapter, if_pos (by rw [h])]
      rw [List.find?_cons_of_pos _ (by simpa using h)]
    | false =>
      rw [assignChapter, if_neg (by rw [h]; exact Bool.false_ne_true)]
      rw [List.find?_cons_of_neg _ (by simpa using h)]
      exact ih


/-! ### Claim theorems -/

/-- C1: on the spec's two-page example the extractor returns two records with
numbers 1 and 2 on pages 1 and 2, but record 0 carries marks "Unknown" (not
"4") and its content retains the trailing page sentinel: the source strips the
span before removing sentinels, so a span-final sentinel loses its closing
newline and survives, which then blocks the anchored marks pattern.  Record 1
is truncated before the ten-star run as the claim states. -/
theorem claim_c1_eval :
    extract_questions_with_year
      ["Q. 1) What is CAPM? [4]".data, "Q. 2) Explain ruin theory. **********".data] =
      [{ num := 1, preview := ("What is CAPM? [4]".data),
         content := ("Q. 1) What is CAPM? [4]\n--- PAGE 2 ---".data),
         marks := ("Unknown".data), chapter := none, year := ("Unknown".data), page := 1 },
       { num := 2, preview := ("Explain ruin theory.".data),
         content := ("Q. 2) Explain ruin theory.".data),
         marks := ("Unknown".data), chapter := none, year := ("Unknown".data), page := 2 }] := by
  rfl

/-- C2 counterexample: a document in which "Q. 2)" physically precedes
"Q. 1)" has two markers but yields only one record (the span of marker 1,
taken up to the physically earlier marker 2, is empty and is discarded), so
extraction does not return one record per marker sorted 1, 2. -/
theorem claim_c2_counterexample :
    ((questionPositions
        ["Q. 2) Second question text goes here fine.\nQ. 1) First question text goes here fine.".data]).map
        (fun m => m.num) = [2, 1]) ∧
    ((extract_questions_with_year
        ["Q. 2) Second question text goes here fine.\nQ. 1) First question text goes here fine.".data]).map
        (fun q => q.num) = [2]) := by
  constructor
  · rfl
  · rfl

/-- C2 (amended): the records that are produced are sorted nondecreasingly by
number, and their number sequence is a subsequence of the sorted marker
numbers — but a marker whose sorted-order span cleans to at most 20
characters (as happens when its numeric successor physically precedes it)
yields no record. -/
theorem claim_c2_amended (pages : List Str) :
    ((extract_questions_with_year pages).map (fun q => q.num)).Pairwise (fun a b => a ≤ b) ∧
    List.Sublist ((extract_questions_with_year pages).map (fun q => q.num))
      ((sortedMarkers pages).map (fun m => m.num)) := by
  constructor
  · have hsorted := List.sorted_insertionSort markerLE (questionPositions pages)
    have hmap : ((sortedMarkers pages).map (fun m => m.num)).Pairwise (fun a b => a ≤ b) :=
      List.pairwise_map.mpr hsorted
    exact List.Pairwise.sublist (extract_num_sublist pages) hmap
  · exact extract_num_sublist pages

/-- C3: the document year is inferred over the whole concatenated text by the
four patterns in listed order with the first search hit winning (pattern 1
contributing its second capture group, the others their only group), defaults
to "Unknown" when no pattern matches anywhere, and the same value is stored
on every returned record. -/
theorem claim_c3 (pages : List Str) :
    (∀ q ∈ extract_questions_with_year pages, q.year = yearStr (concatPages pages).1) ∧
    (∀ g : Str × Str, searchAux matchP1At (concatPages pages).1 = some g →
      yearStr (concatPages pages).1 = g.2) ∧
    (searchAux matchP1At (concatPages pages).1 = none →
      ∀ y, searchAux match20 (concatPages pages).1 = some y →
      yearStr (concatPages pages).1 = y) ∧
    (searchAux matchP1At (concatPages pages).1 = none →
      searchAux match20 (concatPages pages).1 = none →
      ∀ y, searchAux matchP3At (concatPages pages).1 = some y →
      yearStr (concatPages pages).1 = y) ∧
    (searchAux matchP1At (concatPages pages).1 = none →
      searchAux match20 (concatPages pages).1 = none →
      searchAux matchP3At (concatPages pages).1 = none →
      ∀ y, searchAux matchP4At (concatPages pages).1 = some y →
      yearStr (concatPages pages).1 = y) ∧
    (searchAux matchP1At (concatPages pages).1 = none →
      searchAux match20 (concatPages pages).1 = none →
      searchAux matchP3At (concatPages pages).1 = none →
      searchAux matchP4At (concatPages pages).1 = none →
      yearStr (concatPages pages).1 = ("Unknown".data)) := by
  refine ⟨?_, ?_, ?_, ?_, ?_, ?_⟩
  · intro q hq
    obtain ⟨p, hp, hmk⟩ := mem_extract hq
    exact mkRec_year hmk
  · intro g h
    have hne : g.2 ≠ [] := by
      obtain ⟨n, hn⟩ := searchAux_some_drop h
      obtain ⟨r, hr⟩ := matchP1At_match20 hn
      exact match20_ne_nil hr
    simp only [yearStr, inferYearOpt, h]
    rw [if_neg hne]
  · intro h1 y h2
    have hne : y ≠ [] := by
      obtain ⟨n, hn⟩ := searchAux_some_drop h2
      exact match20_ne_nil hn
    simp only [yearStr, inferYearOpt, h1, h2]
    rw [if_neg hne]
  · intro h1 h2 y h3
    have hne : y ≠ [] := by
      obtain ⟨n, hn⟩ := searchAux_some_drop h3
      obtain ⟨k, hk⟩ := matchP3At_drop hn
      exact match20_ne_nil hk
    simp only [yearStr, inferYearOpt, h1, h2, h3]
    rw [if_neg hne]
  · intro h1 h2 h3 y h4
    have hne : y ≠ [] := by
      obtain ⟨n, hn⟩ := searchAux_some_drop h4
      obtain ⟨k, hk⟩ := matchP4At_drop hn
      exact match20_ne_nil hk
    simp only [yearStr, inferYearOpt, h1, h2, h3, h4]
    rw [if_neg hne]
  · intro h1 h2 h3 h4
    simp only [yearStr, inferYearOpt, h1, h2, h3, h4]

/-- C3 witness: on a document containing "28th May 2024" pattern 1 wins and
the year is "2024"; on a document with no year-like text the result is
"Unknown". -/
theorem claim_c3_witness :
    yearStr (concatPages
      ["Q. 1) Something long enough here okay.\nThe exam was held on 28th May 2024 indeed.".data]).1 =
      ("2024".data) ∧
    yearStr (concatPages ["Q. 1) plain text with no year markers at all.".data]).1 =
      ("Unknown".data) := by
  constructor
  · exact (claim_c3
      ["Q. 1) Something long enough here okay.\nThe exam was held on 28th May 2024 indeed.".data]).2.1
      (("28".data), ("2024".data)) (by decide)
  · exact (claim_c3 ["Q. 1) plain text with no year markers at all.".data]).2.2.2.2.2
      (by decide) (by decide) (by decide) (by decide)

/-- C4: the recorded page-break offsets are strictly increasing, and every
detected marker is attributed the page recorded at the greatest break offset
that is at most the marker's start offset. -/
theorem claim_c4 (pages : List Str) :
    ((concatPages pages).2).Pairwise (fun a b => a.1 < b.1) ∧
    ∀ m ∈ questionPositions pages,
      ∃ off, (off, m.page) ∈ (concatPages pages).2 ∧ off ≤ m.start ∧
        ∀ b ∈ (concatPages pages).2, b.1 ≤ m.start → b.1 ≤ off := by
  have hpw : ((concatPages pages).2).Pairwise (fun a b => a.1 < b.1) :=
    concatAux_pairwise pages 1 [] [] List.Pairwise.nil (by intro b hb; simp at hb)
  refine ⟨hpw, ?_⟩
  intro m hm
  have hpage : m.page = findPage (concatPages pages).2 m.start :=
    scanQF_page (concatPages pages).2 ((concatPages pages).1.length + 1)
      (concatPages pages).1 0 m hm
  have hex : ∃ b0 ∈ (concatPages pages).2, b0.1 ≤ m.start := by
    rcases concatAux_zero_head pages 1 with h0 | ⟨pg, ext, he⟩
    · exfalso
      have hall : (concatPages pages).1 = [] :=
        concatAux_nil_all pages 1 [] [] (fun _ => rfl) h0
      have hm2 : m ∈ questionPositions pages := hm
      simp only [questionPositions] at hm2
      rw [hall] at hm2
      simp [scanQF] at hm2
    · refine ⟨(0, pg), ?_, Nat.zero_le _⟩
      show (0, pg) ∈ (concatAux pages 1 [] []).2
      rw [he]
      exact List.mem_cons_self _ _
  rw [hpage]
  exact foldl_page_greatest m.start _ 1 hpw hex

/-- C4 witness: in a two-page document the marker "Q. 2)" at offset 61 is
attributed to page 2, the page recorded at the greatest break offset at most
61. -/
theorem claim_c4_witness :
    ∃ off, (off, 2) ∈ (concatPages
        ["Q. 1) alpha beta gamma delta.".data, "Q. 2) epsilon zeta eta theta.".data]).2 ∧
      off ≤ 61 ∧
      ∀ b ∈ (concatPages
        ["Q. 1) alpha beta gamma delta.".data, "Q. 2) epsilon zeta eta theta.".data]).2,
        b.1 ≤ 61 → b.1 ≤ off :=
  (claim_c4 ["Q. 1) alpha beta gamma delta.".data, "Q. 2) epsilon zeta eta theta.".data]).2
    { num := 2, start := 61, page := 2 } (by decide)

/-- C5 counterexample: a document with two "Q. 5)" markers whose first span
is 8 characters long yields only one record, so duplicates do not always
produce two records. -/
theorem claim_c5_counterexample :
    ((questionPositions
        ["Q. 5) hi Q. 5) This is a much longer question body text.".data]).map
        (fun m => m.num) = [5, 5]) ∧
    ((extract_questions_with_year
        ["Q. 5) hi Q. 5) This is a much longer question body text.".data]).map
        (fun q => q.num) = [5]) := by
  constructor
  · rfl
  · rfl

/-- C5 (amended): the sorted marker list is a permutation of the scanned
markers (duplicates are kept, nothing is deduplicated), it is ordered by
number with the original scan order (strictly increasing start offsets) as
stable tie-break, and the record numbers form a subsequence of the sorted
marker numbers — a duplicate yields its own record exactly when its cleaned
span exceeds 20 characters. -/
theorem claim_c5_amended (pages : List Str) :
    List.Perm (sortedMarkers pages) (questionPositions pages) ∧
    (sortedMarkers pages).Pairwise mlex ∧
    List.Sublist ((extract_questions_with_year pages).map (fun q => q.num))
      ((sortedMarkers pages).map (fun m => m.num)) := by
  refine ⟨List.perm_insertionSort markerLE _, ?_, extract_num_sublist pages⟩
  exact insertionSort_mlex _
    (scanQF_pairwise (concatPages pages).2 ((concatPages pages).1.length + 1)
      (concatPages pages).1 0)

/-- C6: a span that ends exactly at the next page's marker retains the page
sentinel of that page boundary: stripping precedes sentinel removal, so the
sentinel's final newline is gone and the removal regex no longer matches;
record 0's content ends in "--- PAGE 2 ---". -/
theorem claim_c6_eval :
    ((extract_questions_with_year
        ["Q. 1) First question body text.".data, "Q. 2) Second question body text.".data]).map
        (fun q => q.content) =
      [("Q. 1) First question body text.\n--- PAGE 2 ---".data),
       ("Q. 2) Second question body text.".data)]) ∧
    isSubstr ("--- PAGE 2 ---".data)
      ("Q. 1) First question body text.\n--- PAGE 2 ---".data) = true := by
  constructor
  · rfl
  · rfl

set_option maxRecDepth 40000 in
/-- C7 counterexample: a question whose first content line is 160 characters
long gets a preview of length 153 (150 characters plus the ellipsis), so
previewText is not bounded by 150 characters. -/
theorem claim_c7_counterexample :
    (extract_questions_with_year [("Q. 1) ".data ++ List.replicate 160 'a')]).map
      (fun q => q.preview.length) = [153] := by
  rfl

/-- C7 (amended): previewText is at most 153 characters: the cleaned form
(every "Q. <n>)" fragment removed, whitespace-trimmed) of the first line of
the cleaned content whose cleaned form exceeds 10 characters — falling back
to the raw first line, or to the whole content when there are no lines —
truncated to 150 characters with "..." appended when longer than 150. -/
theorem claim_c7_amended (pages : List Str) :
    ∀ q ∈ extract_questions_with_year pages,
      q.preview.length ≤ 153 ∧
      q.preview =
        (let ls := splitNl q.content
         let chosen := ((ls.find? (fun l => decide (10 < (cleanLine l).length))).map
           cleanLine).getD (ls.headD q.content)
         if 150 < chosen.length then chosen.take 150 ++ ("...".data) else chosen) := by
  intro q hq
  obtain ⟨p, hp, hmk⟩ := mem_extract hq
  have hct := mkRec_content hmk
  have hpv := mkRec_preview hmk
  constructor
  · rw [hpv]
    exact mkPreview_len _
  · rw [hpv, hct]
    exact mkPreview_eq _

/-- C7 witness: a concrete record produced by the extractor has preview
length at most 153. -/
theorem claim_c7_witness :
    ({ num := 1, preview := ("Describe the main theorem.".data),
       content := ("Q. 1) Describe the main theorem.".data), marks := ("Unknown".data),
       chapter := none, year := ("Unknown".data), page := 1 } : QRec).preview.length ≤ 153 :=
  (claim_c7_amended ["Q. 1) Describe the main theorem.".data]
    { num := 1, preview := ("Describe the main theorem.".data),
      content := ("Q. 1) Describe the main theorem.".data), marks := ("Unknown".data),
      chapter := none, year := ("Unknown".data), page := 1 } (by decide)).1

/-- C8: every returned record has cleaned content longer than 20 characters;
when every candidate span cleans to at most 20 characters the result is empty,
and a document with no markers yields an empty result — in all cases without
any error (the extractor is a total function). -/
theorem claim_c8 (pages : List Str) :
    (∀ q ∈ extract_questions_with_year pages, 20 < q.content.length) ∧
    ((∀ p ∈ withEnds (concatPages pages).1 (sortedMarkers pages),
        (cleanedSpan (concatPages pages).1 p).length ≤ 20) →
      extract_questions_with_year pages = []) ∧
    (questionPositions pages = [] → extract_questions_with_year pages = []) := by
  refine ⟨?_, ?_, ?_⟩
  · intro q hq
    obtain ⟨p, hp, hmk⟩ := mem_extract hq
    rw [mkRec_content hmk]
    exact mkRec_len hmk
  · intro h
    simp only [extract_questions_with_year]
    rw [List.filterMap_eq_nil_iff]
    intro p hp
    simp only [mkRec]
    rw [if_neg (by have := h p hp; omega)]
  · intro h
    simp only [extract_questions_with_year, sortedMarkers, h]
    rfl

/-- C8 witness: a single short question is dropped, a markerless document
yields no records, and a concrete kept record has content longer than 20
characters. -/
theorem claim_c8_witness :
    extract_questions_with_year ["Q. 1) tiny".data] = [] ∧
    extract_questions_with_year ["no markers in this text".data] = [] ∧
    20 < ("Q. 1) Explain the concept now.".data).length := by
  refine ⟨?_, ?_, ?_⟩
  · exact (claim_c8 ["Q. 1) tiny".data]).2.1 (by decide)
  · exact (claim_c8 ["no markers in this text".data]).2.2 (by decide)
  · exact (claim_c8 ["Q. 1) Explain the concept now.".data]).1
      { num := 1, preview := ("Explain the concept now.".data),
        content := ("Q. 1) Explain the concept now.".data), marks := ("Unknown".data),
        chapter := none, year := ("Unknown".data), page := 1 } (by decide)

/-- C9: bulk chapter assignment preserves the number of records; each record
keeps every field except possibly chapter, which becomes the first chapter in
mapping order with a case-insensitive keyword-substring hit against the
preview, and is left unchanged when no keyword matches. -/
theorem claim_c9 (qs : List QRec) (mapping : List (Str × List Str)) :
    (bulk_assign_by_keywords qs mapping).length = qs.length ∧
    ∀ i : Nat, (bulk_assign_by_keywords qs mapping)[i]? =
      (qs[i]?).map (fun q =>
        { q with chapter :=
            match mapping.find? (fun cm => keywordHit (strLower q.preview) cm.2) with
            | some cm => some cm.1
            | none => q.chapter }) := by
  constructor
  · exact List.length_map _ _
  · intro i
    simp only [bulk_assign_by_keywords, List.getElem?_map]
    cases h : qs[i]? with
    | none => rfl
    | some q => simp [assignChapter_eq]

/-- C10: whenever pattern 3 or pattern 4 has a search hit, pattern 2 already
has one (their matches contain a "20xx" substring), so the four-pattern year
inference always resolves at pattern 1 or 2 and equals its restriction to the
first two patterns on every input. -/
theorem claim_c10 (s : Str) :
    yearStr s = yearStr2 s ∧
    (∀ y, searchAux matchP3At s = some y → ∃ y2, searchAux match20 s = some y2) ∧
    (∀ y, searchAux matchP4At s = some y → ∃ y2, searchAux match20 s = some y2) := by
  have h3 : ∀ y, searchAux matchP3At s = some y → ∃ y2, searchAux match20 s = some y2 := by
    intro y h
    obtain ⟨n, hn⟩ := searchAux_some_drop h
    obtain ⟨k, hk⟩ := matchP3At_drop hn
    rw [List.drop_drop] at hk
    exact search_of_drop_hit hk
  have h4 : ∀ y, searchAux matchP4At s = some y → ∃ y2, searchAux match20 s = some y2 := by
    intro y h
    obtain ⟨n, hn⟩ := searchAux_some_drop h
    obtain ⟨k, hk⟩ := matchP4At_drop hn
    rw [List.drop_drop] at hk
    exact search_of_drop_hit hk
  refine ⟨?_, h3, h4⟩
  simp only [yearStr, yearStr2, inferYearOpt, inferYearOpt2]
  cases hp1 : searchAux matchP1At s with
  | some g => rfl
  | none =>
    cases hp2 : searchAux match20 s with
    | some y => rfl
    | none =>
      have hp3 : searchAux matchP3At s = none := by
        cases hc : searchAux matchP3At s with
        | none => rfl
        | some y =>
          obtain ⟨y2, hy2⟩ := h3 y hc
          rw [hp2] at hy2
          exact absurd hy2 (by simp)
      have hp4 : searchAux matchP4At s = none := by
        cases hc : searchAux matchP4At s with
        | none => rfl
        | some y =>
          obtain ⟨y2, hy2⟩ := h4 y hc
          rw [hp2] at hy2
          exact absurd hy2 (by simp)
      simp only [hp3, hp4]

/-- C10 witness: texts matching pattern 3 and pattern 4 also have a pattern 2
hit. -/
theorem claim_c10_witness :
    (∃ y2, searchAux match20 ("Year: 2024".data) = some y2) ∧
    (∃ y2, searchAux match20 ("Session: 2021".data) = some y2) := by
  constructor
  · exact (claim_c10 ("Year: 2024".data)).2.1 ("2024".data) (by decide)
  · exact (claim_c10 ("Session: 2021".data)).2.2 ("2021".data) (by decide)
